import Mathlib

/-!
# Verification of the schema-parser core

A shallow embedding of the schema-parser core described by the repository's
specification: import resolution, the schema loader/cache, the dependency
graph linking struct fields to their defining nodes, the constant-expression
evaluator and the dynamic value layer.  The implementation files themselves
are not present in the source tree (only the test `schema-parser-test.c++`
is), so every operational definition below is modelled from the
specification's words, and the test file's scenario is replayed as concrete
witness data.
-/

namespace SchemaParserCore

/-- A file path: an absoluteness flag plus a list of path segments.  The
textual path "src/foo/bar.capnp" is `⟨false, ["src","foo","bar.capnp"]⟩`,
and "/usr/include" is `⟨true, ["usr","include"]⟩`.  An import spec that
begins with a separator ("absolute-style") has `absolute = true`. -/
structure Path where
  absolute : Bool
  segs : List String
deriving DecidableEq, Repr

/-- Resolve relative segments against a base directory: each ".." pops one
segment off the base, any other segment is appended. -/
def applySegs : List String → List String → List String
  | base, [] => base
  | base, s :: rest =>
    if s = ".." then applySegs base.dropLast rest else applySegs (base ++ [s]) rest

/-- Modelled from the spec: the resolved path of a relative import is the
spec resolved against the directory of the base path (its `dropLast`). -/
def relResolve (base : Path) (spec : Path) : Path :=
  ⟨base.absolute, applySegs base.segs.dropLast spec.segs⟩

/-- Modelled from the spec: the candidate path for an absolute-style import
is the concatenation of a search-path directory with the spec. -/
def absResolve (dir : Path) (spec : Path) : Path :=
  ⟨dir.absolute, dir.segs ++ spec.segs⟩

/-- Modelled from the spec: the display name of a schema resolved through
the search path is the import spec with its leading separator stripped. -/
def stripLeading (spec : Path) : Path :=
  ⟨false, spec.segs⟩

/-- A field type as written in a declaration: a struct imported from
another file, a struct declared in the same file, or a primitive. -/
inductive TypeDecl where
  | importedStruct (spec : Path) (typeName : String)
  | localStruct (typeName : String)
  | prim
deriving DecidableEq, Repr

/-- One field declaration: name, declaration ordinal and type. -/
structure FieldDecl where
  name : String
  ordinal : Nat
  type : TypeDecl
deriving DecidableEq, Repr

/-- One struct declaration inside a schema file. -/
structure StructDecl where
  name : String
  fields : List FieldDecl
deriving DecidableEq, Repr

/-- The declaration tree of one schema file, as produced by the (external)
declaration parser: the file's declared 64-bit id and its struct
declarations. -/
structure FileDecl where
  fileId : Nat
  structs : List StructDecl
deriving DecidableEq, Repr

/-- The file capability combined with the external declaration parser: maps
a physical path to the file's declaration tree when the file exists. -/
def FileReader : Type := Path → Option FileDecl

/-- Modelled from the spec: `exists(path) -> bool` of the file capability. -/
def fexists (reader : FileReader) (p : Path) : Bool :=
  (reader p).isSome

/-- A schema-file descriptor: logical display name, physical path and the
search-path list (the file capability is passed separately). -/
structure SchemaFileD where
  displayName : Path
  path : Path
  searchPath : List Path
deriving DecidableEq, Repr

/-- First search-path directory whose concatenation with the spec exists,
searching in order. -/
def firstExisting (reader : FileReader) (spec : Path) : List Path → Option Path
  | [] => none
  | d :: rest =>
    if fexists reader (absResolve d spec) then some d
    else firstExisting reader spec rest

/-- Modelled from the spec: the import resolver.  A relative spec resolves
against the importing file's physical directory, with a display name
obtained by rewriting the importing file's logical display-name directory;
an absolute-style spec is tried against each search-path directory in
order, the first whose concatenation with the spec exists wins, and the
display name is the spec with its leading separator stripped.  If no
candidate exists the resolver fails. -/
def resolveImport (reader : FileReader) (importing : SchemaFileD) (spec : Path) :
    Option SchemaFileD :=
  if spec.absolute then
    match firstExisting reader spec importing.searchPath with
    | some d => some ⟨stripLeading spec, absResolve d spec, importing.searchPath⟩
    | none => none
  else
    if fexists reader (relResolve importing.path spec) then
      some ⟨relResolve importing.displayName spec, relResolve importing.path spec,
            importing.searchPath⟩
    else none

/-- Kind of a schema node. -/
inductive NodeKind where
  | file
  | strct
deriving DecidableEq, Repr

/-- One field descriptor inside a built struct node: name, ordinal and the
id of the node defining its type (`none` for primitive types). -/
structure FieldInfo where
  name : String
  ordinal : Nat
  typeId : Option Nat
deriving DecidableEq, Repr

/-- A built schema node: id, parent scope id, display name, kind, the table
of nested declarations (name to id), the ordered field descriptors and the
set of dependency ids. -/
structure Node where
  id : Nat
  scopeId : Nat
  displayName : Path
  kind : NodeKind
  nestedIds : List (String × Nat)
  fields : List FieldInfo
  deps : List Nat
deriving DecidableEq, Repr

/-- Association-list lookup by string key, first binding wins. -/
def lookupName {β : Type} : List (String × β) → String → Option β
  | [], _ => none
  | (n, v) :: rest, x => if n = x then some v else lookupName rest x

/-- The id-keyed node table of one loader instance. -/
structure LoaderState where
  nodes : List Node
deriving DecidableEq, Repr

/-- The first node registered under an id wins every lookup. -/
def findNode : List Node → Nat → Option Node
  | [], _ => none
  | n :: rest, i => if n.id = i then some n else findNode rest i

/-- Look up the node registered under an id. -/
def LoaderState.find (st : LoaderState) (i : Nat) : Option Node :=
  findNode st.nodes i

/-- A loader with an empty node table. -/
def emptyLoader : LoaderState := ⟨[]⟩

/-- Modelled from the spec: the id of a nested declaration is derived from
its parent scope's id and its declaration ordinal. -/
def derivedId (parent : Nat) (ordinal : Nat) : Nat :=
  parent + ordinal + 1

/-- All import specs appearing in the field types of a declaration tree. -/
def importSpecs (decl : FileDecl) : List Path :=
  decl.structs.flatMap fun sd =>
    sd.fields.filterMap fun fd =>
      match fd.type with
      | .importedStruct spec _ => some spec
      | _ => none

/-- Errors of the loader and resolver. -/
inductive LoadError where
  | importDepthExceeded
  | fileNotFound (path : Path)
  | importNotFound (importingDisplayName : Path) (spec : Path)
  | internalMissing (id : Nat)
deriving DecidableEq, Repr

/-- The ordering on field descriptors used to present a struct's fields:
by declaration ordinal. -/
def ordLe (a b : FieldInfo) : Prop := a.ordinal ≤ b.ordinal

instance : DecidableRel ordLe := fun a b => Nat.decLe a.ordinal b.ordinal

instance : IsTotal FieldInfo ordLe := ⟨fun a b => Nat.le_total a.ordinal b.ordinal⟩

instance : IsTrans FieldInfo ordLe := ⟨fun _ _ _ => Nat.le_trans⟩

/-- Association-list lookup by path key, first binding wins. -/
def lookupPath {β : Type} : List (Path × β) → Path → Option β
  | [], _ => none
  | (p, v) :: rest, x => if p = x then some v else lookupPath rest x

/-- Resolve a field's declared type to the id of its defining node: an
imported struct resolves through the map of loaded imports and the
imported file node's nested table, a local struct through the current
file's derived nested ids, a primitive to no dependency. -/
def resolveFieldType (decl : FileDecl) (imap : List (Path × Nat)) (st : LoaderState) :
    TypeDecl → Option Nat
  | .importedStruct spec tname =>
    (lookupPath imap spec).bind fun fid =>
      (st.find fid).bind fun fnode => lookupName fnode.nestedIds tname
  | .localStruct tname =>
    lookupName (decl.structs.enum.map fun p => (p.2.name, derivedId decl.fileId p.1)) tname
  | .prim => none

/-- Build the struct node for the struct declared at index `k` of a file:
its id is derived from the file id and `k`, and its fields are presented
sorted by declaration ordinal, each carrying the id of its resolved type
node; the dependency set collects those ids. -/
def mkStructNode (decl : FileDecl) (imap : List (Path × Nat)) (st : LoaderState)
    (displayName : Path) (k : Nat) (sd : StructDecl) : Node :=
  { id := derivedId decl.fileId k
    scopeId := decl.fileId
    displayName := displayName
    kind := .strct
    nestedIds := []
    fields := List.insertionSort ordLe (sd.fields.map fun fd =>
      ⟨fd.name, fd.ordinal, resolveFieldType decl imap st fd.type⟩)
    deps := (sd.fields.map fun fd => resolveFieldType decl imap st fd.type).reduceOption }

/-- Build all struct nodes of a file declaration. -/
def buildStructNodes (decl : FileDecl) (imap : List (Path × Nat)) (st : LoaderState)
    (displayName : Path) : List Node :=
  decl.structs.enum.map fun p => mkStructNode decl imap st displayName p.1 p.2

/-- Build the file node: it carries the display name fixed at first load
and the table of nested declarations with their derived ids. -/
def mkFileNode (decl : FileDecl) (displayName : Path) : Node :=
  { id := decl.fileId
    scopeId := 0
    displayName := displayName
    kind := .file
    nestedIds := decl.structs.enum.map fun p => (p.2.name, derivedId decl.fileId p.1)
    fields := []
    deps := [] }

/-- Append a node to the table; existing registrations always shadow it. -/
def LoaderState.add (st : LoaderState) (n : Node) : LoaderState :=
  ⟨st.nodes ++ [n]⟩

/-- Append many nodes to the table. -/
def LoaderState.addAll (st : LoaderState) (ns : List Node) : LoaderState :=
  ⟨st.nodes ++ ns⟩

/-- Resolve and load one import spec after another with a given loader
function, threading the state and recording, for each spec, the id of the
file node it resolved to.  The first failure propagates. -/
def loadImportsWith
    (loadFn : SchemaFileD → LoaderState → Except LoadError (Nat × LoaderState))
    (reader : FileReader) (importing : SchemaFileD) :
    List Path → LoaderState → Except LoadError (List (Path × Nat) × LoaderState)
  | [], st => .ok ([], st)
  | spec :: rest, st =>
    match resolveImport reader importing spec with
    | none => .error (.importNotFound importing.displayName spec)
    | some resolved =>
      match loadFn resolved st with
      | .error e => .error e
      | .ok (fid, st') =>
        match loadImportsWith loadFn reader importing rest st' with
        | .error e => .error e
        | .ok (imap, st'') => .ok ((spec, fid) :: imap, st'')

/-- Modelled from the spec: the schema loader/cache.  Read and parse the
file; if its declared id is already registered return the existing handle
unchanged (the supplied display name, path and search path are discarded,
first-registered wins); otherwise register the file node under that id
with the supplied display name, recursively resolve and load every import,
then register the nested struct nodes, each with an id derived from the
parent scope and its ordinal and with dependency edges to the nodes its
field types resolve to.  The fuel argument bounds the import depth. -/
def load (reader : FileReader) :
    Nat → SchemaFileD → LoaderState → Except LoadError (Nat × LoaderState)
  | 0, _, _ => .error .importDepthExceeded
  | fuel + 1, file, st =>
    match reader file.path with
    | none => .error (.fileNotFound file.path)
    | some decl =>
      match st.find decl.fileId with
      | some _ => .ok (decl.fileId, st)
      | none =>
        let st1 := st.add (mkFileNode decl file.displayName)
        match loadImportsWith (load reader fuel) reader file (importSpecs decl) st1 with
        | .error e => .error e
        | .ok (imap, st2) =>
          .ok (decl.fileId, st2.addAll (buildStructNodes decl imap st2 file.displayName))

/-- Load a schema file and return the root file node together with the
updated loader state. -/
def parseFile (reader : FileReader) (fuel : Nat) (file : SchemaFileD)
    (st : LoaderState) : Except LoadError (Node × LoaderState) :=
  match load reader fuel file st with
  | .error e => .error e
  | .ok (fid, st') =>
    match st'.find fid with
    | some n => .ok (n, st')
    | none => .error (.internalMissing fid)

/-- Navigate from a node to a nested declaration by name. -/
def getNested (st : LoaderState) (n : Node) (name : String) : Option Node :=
  (lookupName n.nestedIds name).bind st.find

/-- Look up a dependency of a struct node by id; fails if the id is not
among the node's recorded dependencies. -/
def getDependency (st : LoaderState) (n : Node) (i : Nat) : Option Node :=
  if i ∈ n.deps then st.find i else none

/-! ## The constant evaluator and the dynamic value layer -/

/-- A target type for constant evaluation: a closed set of scalar kinds, a
list type, or a struct type carrying its named field types. -/
inductive Ty where
  | uint32
  | int16
  | text
  | list (elem : Ty)
  | strct (fieldTys : List (String × Ty))

/-- A literal constant expression as produced by the declaration parser. -/
inductive ConstExpr where
  | intLit (n : Int)
  | textLit (s : String)
  | listLit (elems : List ConstExpr)
  | structLit (fieldLits : List (String × ConstExpr))

/-- A dynamic value: a closed tagged variant carrying the static type it
was validated against (the element type, for lists). -/
inductive DynValue where
  | uint32 (n : Nat)
  | int16 (n : Int)
  | text (s : String)
  | list (elemTy : Ty) (elems : List DynValue)
  | strct (fieldVals : List (String × DynValue))

mutual

/-- Modelled from the spec: the schema-declared default of a field whose
declaration supplies none is the zero value of its type. -/
def defaultValue : Ty → DynValue
  | .uint32 => .uint32 0
  | .int16 => .int16 0
  | .text => .text ""
  | .list t => .list t []
  | .strct ftys => .strct (defaultFields ftys)

/-- Defaults of a struct type's fields, field by field. -/
def defaultFields : List (String × Ty) → List (String × DynValue)
  | [] => []
  | (n, t) :: rest => (n, defaultValue t) :: defaultFields rest

end

/-- Errors of the constant evaluator. -/
inductive EvalError where
  | typeMismatch
  | outOfRange
  | unknownField (name : String)
deriving DecidableEq, Repr

/-- Assemble the evaluated fields of a struct literal: every field of the
target struct type appears, bound to its evaluated literal value when the
literal mentioned it and to its schema-declared default otherwise. -/
def assembleFields (ftys : List (String × Ty)) (vals : List (String × DynValue)) :
    List (String × DynValue) :=
  ftys.map fun p => (p.1, (lookupName vals p.1).getD (defaultValue p.2))

mutual

/-- Modelled from the spec: the constant evaluator.  A scalar literal
converts directly to the matching dynamic-value kind, with a range check
against the expected width; a list literal evaluates each element against
the declared element type and assembles a fixed-size dynamic list; a
struct literal evaluates each named field against the target struct's
field type, failing with an unknown-field error when the name is not in
the target's field set, and unmentioned fields take their defaults.  Any
other combination of literal form and expected type is a type mismatch. -/
def evaluate : ConstExpr → Ty → Except EvalError DynValue
  | .intLit n, .uint32 =>
    if 0 ≤ n ∧ n < 4294967296 then .ok (.uint32 n.toNat) else .error .outOfRange
  | .intLit n, .int16 =>
    if -32768 ≤ n ∧ n < 32768 then .ok (.int16 n) else .error .outOfRange
  | .textLit s, .text => .ok (.text s)
  | .listLit es, .list t =>
    match evalElems es t with
    | .error e => .error e
    | .ok vs => .ok (.list t vs)
  | .structLit lits, .strct ftys =>
    match evalNamed lits ftys with
    | .error e => .error e
    | .ok vals => .ok (.strct (assembleFields ftys vals))
  | _, _ => .error .typeMismatch

/-- Evaluate the elements of a list literal, each against the declared
element type, propagating the first failure. -/
def evalElems : List ConstExpr → Ty → Except EvalError (List DynValue)
  | [], _ => .ok []
  | e :: es, t =>
    match evaluate e t with
    | .error er => .error er
    | .ok v =>
      match evalElems es t with
      | .error er => .error er
      | .ok vs => .ok (v :: vs)

/-- Evaluate the named fields of a struct literal: each name must be in
the target struct's field set, and its expression is evaluated against
that field's type; the first failure propagates. -/
def evalNamed : List (String × ConstExpr) → List (String × Ty) →
    Except EvalError (List (String × DynValue))
  | [], _ => .ok []
  | (name, e) :: rest, ftys =>
    match lookupName ftys name with
    | none => .error (.unknownField name)
    | some t =>
      match evaluate e t with
      | .error er => .error er
      | .ok v =>
        match evalNamed rest ftys with
        | .error er => .error er
        | .ok vals => .ok ((name, v) :: vals)

end

/-- Errors of the dynamic value layer; each is local to one access. -/
inductive AccessError where
  | typeMismatch
  | indexOutOfRange
  | noSuchField (name : String)
deriving DecidableEq, Repr

/-- Modelled from the spec: the checked scalar conversion of the dynamic
value layer for 32-bit unsigned integers. -/
def dynAsUInt32 : DynValue → Except AccessError Nat
  | .uint32 n => .ok n
  | _ => .error .typeMismatch

/-- Modelled from the spec: the size of a dynamic list. -/
def dynListSize : DynValue → Except AccessError Nat
  | .list _ es => .ok es.length
  | _ => .error .typeMismatch

/-- Modelled from the spec: list indexing of the dynamic value layer; it
fails with an out-of-range error if the index is not less than the list's
size. -/
def dynListIndex : DynValue → Nat → Except AccessError DynValue
  | .list _ es, i =>
    if h : i < es.length then .ok (es.get ⟨i, h⟩) else .error .indexOutOfRange
  | _, _ => .error .typeMismatch

/-- Modelled from the spec: struct field lookup by name of the dynamic
value layer; it fails with a no-such-field error if the owning schema
declares no field of that name. -/
def dynStructGet : DynValue → String → Except AccessError DynValue
  | .strct fvs, name =>
    match lookupName fvs name with
    | some v => .ok v
    | none => .error (.noSuchField name)
  | _, _ => .error .typeMismatch

/-! ## Concrete scenario data

The schema files of the repository's test `schema-parser-test.c++`,
transcribed as declaration trees behind a fake file capability. -/

/-- Physical path of the root test file. -/
def pBar : Path := ⟨false, ["src", "foo", "bar.capnp"]⟩

/-- Physical path of the relatively-imported file. -/
def pBaz : Path := ⟨false, ["src", "foo", "baz.capnp"]⟩

/-- Physical path of the file imported through a parent-relative spec. -/
def pCorge : Path := ⟨false, ["src", "qux", "corge.capnp"]⟩

/-- Physical path of grault.capnp in the first search directory. -/
def pGraultUsr : Path := ⟨true, ["usr", "include", "grault.capnp"]⟩

/-- Physical path of the same-named grault.capnp in the last search
directory. -/
def pGraultOpt : Path := ⟨true, ["opt", "include", "grault.capnp"]⟩

/-- Physical path of garply.capnp in the second search directory. -/
def pGarply : Path := ⟨true, ["usr", "local", "include", "garply.capnp"]⟩

/-- Declaration tree of src/foo/bar.capnp. -/
def barDecl : FileDecl :=
  ⟨0x8123456789abcdef,
   [⟨"Bar",
     [⟨"baz", 0, .importedStruct ⟨false, ["baz.capnp"]⟩ "Baz"⟩,
      ⟨"corge", 1, .importedStruct ⟨false, ["..", "qux", "corge.capnp"]⟩ "Corge"⟩,
      ⟨"grault", 2, .importedStruct ⟨true, ["grault.capnp"]⟩ "Grault"⟩,
      ⟨"garply", 3, .importedStruct ⟨true, ["garply.capnp"]⟩ "Garply"⟩]⟩]⟩

/-- Declaration tree of src/foo/baz.capnp. -/
def bazDecl : FileDecl := ⟨0x823456789abcdef1, [⟨"Baz", []⟩]⟩

/-- Declaration tree of src/qux/corge.capnp. -/
def corgeDecl : FileDecl := ⟨0x83456789abcdef12, [⟨"Corge", []⟩]⟩

/-- Declaration tree of /usr/include/grault.capnp. -/
def graultDecl : FileDecl := ⟨0x8456789abcdef123, [⟨"Grault", []⟩]⟩

/-- Declaration tree of /opt/include/grault.capnp, carrying a different
declared id than the same-named file in /usr/include. -/
def wrongGraultDecl : FileDecl := ⟨0x8000000000000001, [⟨"WrongGrault", []⟩]⟩

/-- Declaration tree of /usr/local/include/garply.capnp. -/
def garplyDecl : FileDecl := ⟨0x856789abcdef1234, [⟨"Garply", []⟩]⟩

/-- The fake file table of the test. -/
def testFiles : List (Path × FileDecl) :=
  [(pBar, barDecl), (pBaz, bazDecl), (pCorge, corgeDecl),
   (pGraultUsr, graultDecl), (pGraultOpt, wrongGraultDecl), (pGarply, garplyDecl)]

/-- The fake file capability of the test. -/
def testReader : FileReader := fun p => lookupPath testFiles p

/-- The test's search path: /usr/include, /usr/local/include,
/opt/include, in that order. -/
def testSearchPath : List Path :=
  [⟨true, ["usr", "include"]⟩, ⟨true, ["usr", "local", "include"]⟩,
   ⟨true, ["opt", "include"]⟩]

/-- The root descriptor of the test: display name foo2/bar2.capnp over
physical path src/foo/bar.capnp. -/
def barFile : SchemaFileD := ⟨⟨false, ["foo2", "bar2.capnp"]⟩, pBar, testSearchPath⟩

/-- The loader state after loading the root test file. -/
def testState : LoaderState :=
  match load testReader 10 barFile emptyLoader with
  | .ok r => r.2
  | .error _ => emptyLoader

/-- The state component of a load result, or the empty loader on error. -/
def stateOr (r : Except LoadError (Nat × LoaderState)) : LoaderState :=
  match r with
  | .ok p => p.2
  | .error _ => emptyLoader

/-- The id component of a load result, or zero on error. -/
def idOr (r : Except LoadError (Nat × LoaderState)) : Nat :=
  match r with
  | .ok p => p.1
  | .error _ => 0

/-- A placeholder node used only to totalise option extraction. -/
def dummyNode : Node := mkFileNode ⟨0, []⟩ ⟨false, []⟩

/-- Extract a node from an optional lookup result. -/
def nodeOr (o : Option Node) : Node := o.getD dummyNode

/-- The test's second descriptor for src/foo/baz.capnp, carrying a display
name that is discarded because the file is already loaded. -/
def bazFile2 : SchemaFileD :=
  ⟨⟨false, ["not", "used", "because", "already", "loaded"]⟩, pBaz, testSearchPath⟩

/-- The baz.capnp file node cached by the root load. -/
def bazFileNode : Node := nodeOr (testState.find 0x823456789abcdef1)

/-- The Bar struct node built by the root load. -/
def barStructNode : Node := nodeOr (testState.find (derivedId 0x8123456789abcdef 0))

/-- The Baz struct node built by the root load. -/
def bazStructNode : Node := nodeOr (testState.find (derivedId 0x823456789abcdef1 0))

/-- The import spec of grault.capnp, absolute-style. -/
def graultSpec : Path := ⟨true, ["grault.capnp"]⟩

/-- The descriptor the resolver produces for the grault import. -/
def graultResolved : SchemaFileD :=
  ⟨stripLeading graultSpec, absResolve ⟨true, ["usr", "include"]⟩ graultSpec,
   testSearchPath⟩

/-- The relative import spec ../qux/corge.capnp. -/
def corgeRelSpec : Path := ⟨false, ["..", "qux", "corge.capnp"]⟩

/-- An alternative physical layout: the same logical bar file stored at an
absolute location, with an empty search path. -/
def altBarFile : SchemaFileD :=
  ⟨⟨false, ["foo2", "bar2.capnp"]⟩, ⟨true, ["elsewhere", "bar.capnp"]⟩, []⟩

/-- A file capability for the alternative layout, holding corge.capnp next
to the relocated bar file's parent directory. -/
def altReader : FileReader := fun p =>
  if p = ⟨true, ["qux", "corge.capnp"]⟩ then some corgeDecl else none

end SchemaParserCore

namespace SchemaParserCore

/-! ## General lemmas about the node table and the loader -/

theorem findNode_append_of_some (t : List Node) :
    ∀ (l : List Node) (i : Nat) (n : Node), findNode l i = some n →
      findNode (l ++ t) i = some n := by
  intro l
  induction l with
  | nil => intro i n h; simp [findNode] at h
  | cons x xs ih =>
    intro i n h
    rw [List.cons_append]
    unfold findNode at h ⊢
    by_cases hx : x.id = i
    · rw [if_pos hx] at h
      rw [if_pos hx]
      exact h
    · rw [if_neg hx] at h
      rw [if_neg hx]
      exact ih i n h

theorem loadImportsWith_nodes_append
    {loadFn : SchemaFileD → LoaderState → Except LoadError (Nat × LoaderState)}
    (hfn : ∀ f st r, loadFn f st = .ok r → ∃ t, r.2.nodes = st.nodes ++ t)
    (reader : FileReader) (importing : SchemaFileD) :
    ∀ specs st r, loadImportsWith loadFn reader importing specs st = .ok r →
      ∃ t, r.2.nodes = st.nodes ++ t := by
  intro specs
  induction specs with
  | nil =>
    intro st r h
    simp only [loadImportsWith] at h
    cases h
    exact ⟨[], by simp⟩
  | cons spec rest ih =>
    intro st r h
    simp only [loadImportsWith] at h
    cases hres : resolveImport reader importing spec with
    | none => simp only [hres] at h; cases h
    | some resolved =>
      simp only [hres] at h
      cases hl : loadFn resolved st with
      | error e => simp only [hl] at h; cases h
      | ok p =>
        obtain ⟨fid, st1⟩ := p
        simp only [hl] at h
        cases hrest : loadImportsWith loadFn reader importing rest st1 with
        | error e => simp only [hrest] at h; cases h
        | ok q =>
          obtain ⟨imap, st2⟩ := q
          simp only [hrest] at h
          cases h
          obtain ⟨t1, ht1⟩ := hfn resolved st (fid, st1) hl
          obtain ⟨t2, ht2⟩ := ih st1 (imap, st2) hrest
          exact ⟨t1 ++ t2, by rw [ht2, ht1, List.append_assoc]⟩

theorem load_nodes_append (reader : FileReader) :
    ∀ fuel file st fid st', load reader fuel file st = .ok (fid, st') →
      ∃ t, st'.nodes = st.nodes ++ t := by
  intro fuel
  induction fuel with
  | zero => intro file st fid st' h; simp [load] at h
  | succ m ih =>
    intro file st fid st' h
    simp only [load] at h
    cases hd : reader file.path with
    | none => simp only [hd] at h; cases h
    | some decl =>
      simp only [hd] at h
      cases hf : st.find decl.fileId with
      | some n0 =>
        simp only [hf] at h
        cases h
        exact ⟨[], by simp⟩
      | none =>
        simp only [hf] at h
        cases him : loadImportsWith (load reader m) reader file (importSpecs decl)
            (st.add (mkFileNode decl file.displayName)) with
        | error e => simp only [him] at h; cases h
        | ok p =>
          obtain ⟨imap, st2⟩ := p
          simp only [him] at h
          cases h
          have hfn : ∀ f s r, load reader m f s = .ok r → ∃ t, r.2.nodes = s.nodes ++ t := by
            intro f s r hr
            exact ih f s r.1 r.2 hr
          obtain ⟨t1, ht1⟩ :=
            loadImportsWith_nodes_append hfn reader file (importSpecs decl)
              (st.add (mkFileNode decl file.displayName)) (imap, st2) him
          refine ⟨[mkFileNode decl file.displayName] ++ t1 ++
            buildStructNodes decl imap st2 file.displayName, ?_⟩
          have ht1' : st2.nodes = (st.add (mkFileNode decl file.displayName)).nodes ++ t1 := ht1
          simp only [LoaderState.addAll, ht1', LoaderState.add]
          simp [List.append_assoc]

/-! ## C1: the loader registers each id at most once, first registration
wins -/

/-- C1.  For every loader instance, each file/node id is registered at most
once: a successful load never changes the node an already-registered id
resolves to; and every load call whose file parses to an already-registered
id returns that id with the state unchanged, so the cached node keeps its
first-seen display name and the display name, path and search path supplied
by the later call are discarded. -/
theorem loader_registers_each_id_once_first_wins
    (reader : FileReader) (fuel : Nat) (file : SchemaFileD) (st : LoaderState)
    (fid : Nat) (st' : LoaderState)
    (hload : load reader fuel file st = .ok (fid, st')) :
    (∀ i n, st.find i = some n → st'.find i = some n) ∧
    (∀ decl, reader file.path = some decl → ∀ n0, st.find decl.fileId = some n0 →
      st' = st ∧ fid = decl.fileId) := by
  constructor
  · intro i n hfind
    obtain ⟨t, ht⟩ := load_nodes_append reader fuel file st fid st' hload
    unfold LoaderState.find at hfind ⊢
    rw [ht]
    exact findNode_append_of_some t st.nodes i n hfind
  · intro decl hdecl n0 hn0
    cases fuel with
    | zero => simp [load] at hload
    | succ m =>
      simp only [load, hdecl, hn0] at hload
      cases hload
      exact ⟨rfl, rfl⟩

/-- Witness for C1, replaying the test: after the root load of
src/foo/bar.capnp (which transitively registered src/foo/baz.capnp under
display name foo2/baz.capnp), loading baz.capnp again through the
descriptor with display name "not/used/because/already/loaded" returns the
cached id and leaves the loader state — hence the first-seen display
name — unchanged. -/
theorem loader_registers_each_id_once_first_wins_witness :
    stateOr (load testReader 10 bazFile2 testState) = testState ∧
    idOr (load testReader 10 bazFile2 testState) = bazDecl.fileId := by
  have hload : load testReader 10 bazFile2 testState =
      .ok (idOr (load testReader 10 bazFile2 testState),
           stateOr (load testReader 10 bazFile2 testState)) := by rfl
  have h := loader_registers_each_id_once_first_wins testReader 10 bazFile2 testState
    (idOr (load testReader 10 bazFile2 testState))
    (stateOr (load testReader 10 bazFile2 testState)) hload
  exact h.2 bazDecl rfl bazFileNode rfl

/-! ## C2: absolute-style imports take the first matching search directory -/

theorem firstExisting_eq_of_first (reader : FileReader) (spec : Path) :
    ∀ (l : List Path) (i : Nat) (d : Path), l[i]? = some d →
      (∀ j dj, j < i → l[j]? = some dj → fexists reader (absResolve dj spec) = false) →
      fexists reader (absResolve d spec) = true →
      firstExisting reader spec l = some d := by
  intro l
  induction l with
  | nil => intro i d h; simp at h
  | cons x rest ih =>
    intro i d hget hpre hex
    cases i with
    | zero =>
      rw [List.getElem?_cons_zero] at hget
      cases hget
      unfold firstExisting
      simp [hex]
    | succ j =>
      have hx : fexists reader (absResolve x spec) = false :=
        hpre 0 x (Nat.succ_pos j) (by simp)
      rw [List.getElem?_cons_succ] at hget
      unfold firstExisting
      simp only [hx, Bool.false_eq_true, if_false]
      exact ih j d hget
        (fun k dk hk hgk => hpre (k + 1) dk (Nat.succ_lt_succ hk)
          (by rwa [List.getElem?_cons_succ])) hex

theorem load_ok_id (reader : FileReader) (fuel : Nat) (file : SchemaFileD)
    (st : LoaderState) (fid : Nat) (st' : LoaderState) (decl : FileDecl)
    (hd : reader file.path = some decl)
    (h : load reader fuel file st = .ok (fid, st')) : fid = decl.fileId := by
  cases fuel with
  | zero => simp [load] at h
  | succ m =>
    simp only [load, hd] at h
    cases hf : st.find decl.fileId with
    | some n0 =>
      simp only [hf] at h
      cases h
      rfl
    | none =>
      simp only [hf] at h
      cases him : loadImportsWith (load reader m) reader file (importSpecs decl)
          (st.add (mkFileNode decl file.displayName)) with
      | error e => simp only [him] at h; cases h
      | ok p =>
        obtain ⟨imap, st2⟩ := p
        simp only [him] at h
        cases h
        rfl

/-- C2.  For an absolute-style import spec the resolver consults the
search-path directories in order and selects the first whose concatenation
with the spec exists per the file capability; the resolved descriptor's
display name is the spec with its leading separator stripped, and loading
the resolved descriptor yields the first directory's declared file id —
never the id declared by a same-named file in a later directory. -/
theorem absolute_import_first_search_dir_wins
    (reader : FileReader) (imp : SchemaFileD) (spec : Path) (i : Nat) (d : Path)
    (habs : spec.absolute = true)
    (hget : imp.searchPath[i]? = some d)
    (hpre : ∀ j dj, j < i → imp.searchPath[j]? = some dj →
      fexists reader (absResolve dj spec) = false)
    (hex : fexists reader (absResolve d spec) = true) :
    resolveImport reader imp spec =
      some ⟨stripLeading spec, absResolve d spec, imp.searchPath⟩ ∧
    (∀ fuel st fid st' decl, reader (absResolve d spec) = some decl →
      load reader fuel ⟨stripLeading spec, absResolve d spec, imp.searchPath⟩ st =
        .ok (fid, st') →
      fid = decl.fileId ∧
      ∀ decl2 : FileDecl, decl2.fileId ≠ decl.fileId → fid ≠ decl2.fileId) := by
  have hfe := firstExisting_eq_of_first reader spec imp.searchPath i d hget hpre hex
  constructor
  · simp [resolveImport, habs, hfe]
  · intro fuel st fid st' decl hdecl hload
    have hid := load_ok_id reader fuel _ st fid st' decl hdecl hload
    refine ⟨hid, fun decl2 hne hc => hne ?_⟩
    rw [← hc, hid]

/-- Witness for C2, replaying the test's grault import: both /usr/include
and /opt/include contain grault.capnp with different declared ids; the
resolver picks /usr/include (the first search directory), the display name
is grault.capnp, and the loaded schema carries /usr/include's id
0x8456789abcdef123, not /opt/include's 0x8000000000000001. -/
theorem absolute_import_first_search_dir_wins_witness :
    resolveImport testReader barFile graultSpec = some graultResolved ∧
    idOr (load testReader 5 graultResolved emptyLoader) = graultDecl.fileId ∧
    idOr (load testReader 5 graultResolved emptyLoader) ≠ wrongGraultDecl.fileId := by
  have h := absolute_import_first_search_dir_wins testReader barFile graultSpec 0
    ⟨true, ["usr", "include"]⟩ rfl rfl
    (fun j dj hj _ => absurd hj (Nat.not_lt_zero j)) rfl
  have h2 := h.2 5 emptyLoader (idOr (load testReader 5 graultResolved emptyLoader))
    (stateOr (load testReader 5 graultResolved emptyLoader)) graultDecl rfl (by rfl)
  exact ⟨h.1, h2.1, h2.2 wrongGraultDecl (by decide)⟩

/-! ## C3: relative imports rewrite the logical display-name directory -/

/-- C3.  For an import spec relative to the importing file, the resolved
descriptor's physical path is the spec resolved against the importing
file's physical directory, and its display name is the importing file's
logical display-name directory rewritten with the relative path; the
display name is independent of the physical layout and of the search
path. -/
theorem relative_import_rewrites_display_dir
    (reader : FileReader) (imp : SchemaFileD) (spec : Path)
    (habs : spec.absolute = false)
    (hex : fexists reader (relResolve imp.path spec) = true) :
    resolveImport reader imp spec =
      some ⟨relResolve imp.displayName spec, relResolve imp.path spec,
            imp.searchPath⟩ ∧
    (∀ (reader2 : FileReader) (imp2 : SchemaFileD),
      imp2.displayName = imp.displayName →
      fexists reader2 (relResolve imp2.path spec) = true →
      (resolveImport reader2 imp2 spec).map SchemaFileD.displayName =
        some (relResolve imp.displayName spec)) := by
  constructor
  · simp [resolveImport, habs, hex]
  · intro reader2 imp2 hdn hex2
    simp [resolveImport, habs, hex2, hdn]

/-- Witness for C3, replaying the test: bar.capnp has display name
foo2/bar2.capnp and physical path src/foo/bar.capnp; its relative import
../qux/corge.capnp resolves to physical path src/qux/corge.capnp with
display name qux/corge.capnp, and the same display name results under a
completely different physical layout and an empty search path. -/
theorem relative_import_rewrites_display_dir_witness :
    resolveImport testReader barFile corgeRelSpec =
      some ⟨⟨false, ["qux", "corge.capnp"]⟩, pCorge, testSearchPath⟩ ∧
    (resolveImport altReader altBarFile corgeRelSpec).map SchemaFileD.displayName =
      some ⟨false, ["qux", "corge.capnp"]⟩ := by
  have h := relative_import_rewrites_display_dir testReader barFile corgeRelSpec rfl rfl
  exact ⟨h.1, h.2 altReader altBarFile rfl rfl⟩

/-! ## C4: dependency lookup and independent loading yield the same node -/

/-- C4.  For a struct field whose declared type is a struct imported from
another file, both access paths end at the same entry of the loader's
id-keyed node table: loading the imported file again returns the cached
file node with the state unchanged, navigating it to the struct yields the
node registered under the field's type id, and the containing struct's
dependency lookup by that id yields the identical node. -/
theorem dependency_lookup_equals_independent_load
    (reader : FileReader) (fB : SchemaFileD) (st : LoaderState) (declB : FileDecl)
    (nS nodeB nT : Node) (t : Nat) (tname : String) (fuel : Nat)
    (hread : reader fB.path = some declB)
    (hcache : st.find declB.fileId = some nodeB)
    (hself : st.find nS.id = some nS)
    (hnested : lookupName nodeB.nestedIds tname = some t)
    (hdep : t ∈ nS.deps)
    (hT : st.find t = some nT) :
    load reader (fuel + 1) fB st = .ok (declB.fileId, st) ∧
    getNested st nodeB tname = some nT ∧
    getDependency st nS t = some nT ∧
    getNested st nodeB tname = getDependency st nS t := by
  refine ⟨?_, ?_, ?_, ?_⟩
  · simp [load, hread, hcache]
  · simp [getNested, hnested, hT]
  · simp [getDependency, hdep, hT]
  · simp [getNested, getDependency, hnested, hdep, hT]

/-- Witness for C4, replaying the test: the Bar struct's baz field has the
imported Baz struct type; looking Bar's dependency up by Baz's id and
independently re-loading src/foo/baz.capnp then navigating to Baz both
yield the identical cached node. -/
theorem dependency_lookup_equals_independent_load_witness :
    load testReader 10 bazFile2 testState = .ok (bazDecl.fileId, testState) ∧
    getNested testState bazFileNode "Baz" = some bazStructNode ∧
    getDependency testState barStructNode (derivedId 0x823456789abcdef1 0) =
      some bazStructNode ∧
    getNested testState bazFileNode "Baz" =
      getDependency testState barStructNode (derivedId 0x823456789abcdef1 0) :=
  dependency_lookup_equals_independent_load testReader bazFile2 testState bazDecl
    barStructNode bazFileNode bazStructNode (derivedId 0x823456789abcdef1 0) "Baz" 9
    rfl rfl rfl rfl (by decide) rfl

/-! ## C10: a struct's field descriptors, count and order -/

theorem findNode_eq_of_nodup :
    ∀ (l : List Node), (l.map Node.id).Nodup →
      ∀ n ∈ l, findNode l n.id = some n := by
  intro l
  induction l with
  | nil => intro _ n hn; cases hn
  | cons x xs ih =>
    intro hnd n hn
    have hnd' : x.id ∉ xs.map Node.id ∧ (xs.map Node.id).Nodup := by
      rw [List.map_cons, List.nodup_cons] at hnd
      exact hnd
    unfold findNode
    rcases List.mem_cons.mp hn with h | h
    · subst h
      simp
    · have hx : x.id ≠ n.id := by
        intro hc
        exact hnd'.1 (hc ▸ List.mem_map_of_mem Node.id h)
      rw [if_neg hx]
      exact ih hnd'.2 n h

/-- C10.  A successfully loaded struct schema presents exactly as many
field descriptors as the source text declares, ordered by declaration
ordinal; when the declaration lists its fields with strictly increasing
ordinals, the descriptors carry the declared field names in declaration
order. -/
theorem struct_fields_count_and_ordinal_order
    (reader : FileReader) (fuel : Nat) (file : SchemaFileD) (st : LoaderState)
    (decl : FileDecl) (fid : Nat) (st' : LoaderState) (k : Nat) (sd : StructDecl)
    (hread : reader file.path = some decl)
    (hfresh : st.find decl.fileId = none)
    (hload : load reader fuel file st = .ok (fid, st'))
    (hk : decl.structs[k]? = some sd)
    (hnd : (st'.nodes.map Node.id).Nodup) :
    ∃ nS, st'.find (derivedId decl.fileId k) = some nS ∧
      nS.fields.length = sd.fields.length ∧
      List.Pairwise ordLe nS.fields ∧
      (sd.fields.Pairwise (fun a b => a.ordinal < b.ordinal) →
        nS.fields.map FieldInfo.name = sd.fields.map FieldDecl.name) := by
  cases fuel with
  | zero => simp [load] at hload
  | succ m =>
    simp only [load, hread, hfresh] at hload
    cases him : loadImportsWith (load reader m) reader file (importSpecs decl)
        (st.add (mkFileNode decl file.displayName)) with
    | error e => simp only [him] at hload; cases hload
    | ok p =>
      obtain ⟨imap, st2⟩ := p
      simp only [him] at hload
      cases hload
      refine ⟨mkStructNode decl imap st2 file.displayName k sd, ?_, ?_, ?_, ?_⟩
      · have hbs : (buildStructNodes decl imap st2 file.displayName)[k]? =
            some (mkStructNode decl imap st2 file.displayName k sd) := by
          simp [buildStructNodes, List.getElem?_map, List.getElem?_enum, hk]
        have hmem : mkStructNode decl imap st2 file.displayName k sd ∈
            (st2.addAll (buildStructNodes decl imap st2 file.displayName)).nodes :=
          List.mem_append_right st2.nodes (List.getElem?_mem hbs)
        exact findNode_eq_of_nodup _ hnd _ hmem
      · simp [mkStructNode, List.length_insertionSort, List.length_map]
      · exact List.sorted_insertionSort ordLe _
      · intro hinc
        have hs : List.Sorted ordLe (sd.fields.map fun fd =>
            (⟨fd.name, fd.ordinal, resolveFieldType decl imap st2 fd.type⟩ :
              FieldInfo)) := by
          rw [List.Sorted, List.pairwise_map]
          exact hinc.imp Nat.le_of_lt
        show (List.insertionSort ordLe _).map FieldInfo.name = _
        rw [hs.insertionSort_eq, List.map_map]
        rfl

/-- Witness for C10, replaying the test: the Bar struct declares four
fields baz, corge, grault, garply at ordinals 0..3, and the loaded struct
node presents exactly four descriptors with those names in that order. -/
theorem struct_fields_count_and_ordinal_order_witness :
    ∃ nS, testState.find (derivedId barDecl.fileId 0) = some nS ∧
      nS.fields.length = 4 ∧
      List.Pairwise ordLe nS.fields ∧
      nS.fields.map FieldInfo.name = ["baz", "corge", "grault", "garply"] := by
  obtain ⟨nS, h1, h2, h3, h4⟩ := struct_fields_count_and_ordinal_order
    testReader 10 barFile emptyLoader barDecl barDecl.fileId testState 0
    (barDecl.structs.get ⟨0, by decide⟩) rfl rfl (by rfl) (by rfl) (by decide)
  refine ⟨nS, h1, by simpa using h2, h3, ?_⟩
  rw [h4 (by decide)]
  rfl

/-! ## C5: integer literals evaluate to exactly that integer -/

/-- C5.  Evaluating an in-range integer literal const expression against an
integer type yields exactly that integer as the dynamic value, and the
const accessor reads the same integer back. -/
theorem uint32_const_literal_reads_back
    (n : Int) (h0 : 0 ≤ n) (h1 : n < 4294967296) :
    evaluate (.intLit n) .uint32 = .ok (.uint32 n.toNat) ∧
    dynAsUInt32 (.uint32 n.toNat) = .ok n.toNat := by
  constructor
  · simp only [evaluate, if_pos (And.intro h0 h1)]
  · rfl

/-- Witness for C5, replaying the test: the UInt32 constant declared as
1234 evaluates to the dynamic value 1234 and reads back as 1234. -/
theorem uint32_const_literal_reads_back_witness :
    evaluate (.intLit 1234) .uint32 = .ok (.uint32 1234) ∧
    dynAsUInt32 (.uint32 1234) = .ok 1234 :=
  uint32_const_literal_reads_back 1234 (by decide) (by decide)

/-! ## C7: list literals build fixed-size lists, element by element -/

theorem evalElems_ok :
    ∀ (es : List ConstExpr) (t : Ty) (vs : List DynValue),
      evalElems es t = .ok vs →
      vs.length = es.length ∧
      ∀ (i : Nat) (e : ConstExpr), es[i]? = some e →
        ∃ v, vs[i]? = some v ∧ evaluate e t = .ok v := by
  intro es
  induction es with
  | nil =>
    intro t vs h
    simp only [evalElems] at h
    cases h
    exact ⟨rfl, fun i e he => by simp at he⟩
  | cons e es ih =>
    intro t vs h
    simp only [evalElems] at h
    cases hv : evaluate e t with
    | error er => simp only [hv] at h; cases h
    | ok v =>
      simp only [hv] at h
      cases hvs : evalElems es t with
      | error er => simp only [hvs] at h; cases h
      | ok vs0 =>
        simp only [hvs] at h
        cases h
        obtain ⟨hlen, hpt⟩ := ih t vs0 hvs
        refine ⟨by simp [hlen], ?_⟩
        intro i e0 he
        cases i with
        | zero =>
          rw [List.getElem?_cons_zero] at he
          cases he
          exact ⟨v, by simp, hv⟩
        | succ j =>
          rw [List.getElem?_cons_succ] at he
          obtain ⟨v0, hv0, hev0⟩ := hpt j e0 he
          refine ⟨v0, ?_, hev0⟩
          rw [List.getElem?_cons_succ]
          exact hv0

/-- C7.  Evaluating a list literal against a list type yields a fixed-size
dynamic list whose size equals the literal's element count, and each of
its elements is the evaluation of the corresponding literal element
against the declared element type, readable back through list indexing. -/
theorem list_literal_size_and_elements
    (es : List ConstExpr) (t : Ty) (vs : List DynValue)
    (h : evalElems es t = .ok vs) :
    evaluate (.listLit es) (.list t) = .ok (.list t vs) ∧
    dynListSize (.list t vs) = .ok es.length ∧
    vs.length = es.length ∧
    (∀ (i : Nat) (e : ConstExpr), es[i]? = some e →
      ∃ v, vs[i]? = some v ∧ evaluate e t = .ok v ∧
        dynListIndex (.list t vs) i = .ok v) := by
  obtain ⟨hlen, hpt⟩ := evalElems_ok es t vs h
  refine ⟨by simp [evaluate, h], by simp [dynListSize, hlen], hlen, ?_⟩
  intro i e he
  obtain ⟨v, hv, hev⟩ := hpt i e he
  have hi : i < vs.length := by
    by_contra hge
    rw [List.getElem?_eq_none (Nat.le_of_not_lt hge)] at hv
    cases hv
  have hgv : vs[i] = v := by
    rw [List.getElem?_eq_getElem hi] at hv
    exact Option.some.inj hv
  refine ⟨v, hv, hev, ?_⟩
  simp only [dynListIndex, dif_pos hi]
  rw [List.get_eq_getElem, hgv]

/-- Witness for C7, replaying the test's three-element list constant: the
literal [1, 2, 3] against List(UInt32) evaluates to a dynamic list of size
three whose second element is the evaluation of the second literal. -/
theorem list_literal_size_and_elements_witness :
    evaluate (.listLit [.intLit 1, .intLit 2, .intLit 3]) (.list .uint32) =
      .ok (.list .uint32 [.uint32 1, .uint32 2, .uint32 3]) ∧
    dynListSize (.list .uint32 [.uint32 1, .uint32 2, .uint32 3]) = .ok 3 ∧
    (∃ v, ([DynValue.uint32 1, .uint32 2, .uint32 3])[1]? = some v ∧
      evaluate (.intLit 2) .uint32 = .ok v ∧
      dynListIndex (.list .uint32 [.uint32 1, .uint32 2, .uint32 3]) 1 = .ok v) := by
  have h := list_literal_size_and_elements [.intLit 1, .intLit 2, .intLit 3] .uint32
    [.uint32 1, .uint32 2, .uint32 3] rfl
  exact ⟨h.1, h.2.1, h.2.2.2 1 (.intLit 2) rfl⟩


/-! ## C8: struct literals, unknown fields and defaults -/

theorem evalNamed_unknown (ftys : List (String × Ty)) :
    ∀ (pre : List (String × ConstExpr)) (vals : List (String × DynValue))
      (name : String) (e : ConstExpr) (post : List (String × ConstExpr)),
      evalNamed pre ftys = .ok vals →
      lookupName ftys name = none →
      evalNamed (pre ++ (name, e) :: post) ftys = .error (.unknownField name) := by
  intro pre
  induction pre with
  | nil =>
    intro vals name e post _ hun
    simp only [List.nil_append, evalNamed, hun]
  | cons p pre ih =>
    obtain ⟨n0, e0⟩ := p
    intro vals name e post hok hun
    simp only [evalNamed] at hok
    cases ht0 : lookupName ftys n0 with
    | none => simp only [ht0] at hok; cases hok
    | some t0 =>
      simp only [ht0] at hok
      cases hv0 : evaluate e0 t0 with
      | error er => simp only [hv0] at hok; cases hok
      | ok v0 =>
        simp only [hv0] at hok
        cases hrest : evalNamed pre ftys with
        | error er => simp only [hrest] at hok; cases hok
        | ok vals0 =>
          have hih := ih vals0 name e post hrest hun
          simp only [List.cons_append, evalNamed, ht0, hv0, List.append_eq, hih]

theorem evalNamed_names :
    ∀ (lits : List (String × ConstExpr)) (ftys : List (String × Ty))
      (vals : List (String × DynValue)),
      evalNamed lits ftys = .ok vals → vals.map Prod.fst = lits.map Prod.fst := by
  intro lits
  induction lits with
  | nil =>
    intro ftys vals h
    simp only [evalNamed] at h
    cases h
    rfl
  | cons p rest ih =>
    obtain ⟨n0, e0⟩ := p
    intro ftys vals h
    simp only [evalNamed] at h
    cases ht0 : lookupName ftys n0 with
    | none => simp only [ht0] at h; cases h
    | some t0 =>
      simp only [ht0] at h
      cases hv0 : evaluate e0 t0 with
      | error er => simp only [hv0] at h; cases h
      | ok v0 =>
        simp only [hv0] at h
        cases hrest : evalNamed rest ftys with
        | error er => simp only [hrest] at h; cases h
        | ok vals0 =>
          simp only [hrest] at h
          cases h
          simp only [List.map_cons, ih ftys vals0 hrest]

theorem lookupName_none_of_keys {β γ : Type} :
    ∀ (l : List (String × β)) (l' : List (String × γ)),
      l.map Prod.fst = l'.map Prod.fst →
      ∀ x, lookupName l x = none → lookupName l' x = none := by
  intro l
  induction l with
  | nil =>
    intro l' hk x _
    cases l' with
    | nil => rfl
    | cons q rest' => simp at hk
  | cons p rest ih =>
    obtain ⟨n, v⟩ := p
    intro l' hk x hn
    cases l' with
    | nil => rfl
    | cons q rest' =>
      obtain ⟨n', v'⟩ := q
      simp only [List.map_cons, List.cons.injEq] at hk
      simp only [lookupName] at hn ⊢
      by_cases hx : n = x
      · rw [if_pos hx] at hn
        cases hn
      · rw [if_neg hx] at hn
        rw [if_neg (hk.1 ▸ hx)]
        exact ih rest' hk.2 x hn

theorem lookupName_assembleFields (vals : List (String × DynValue)) :
    ∀ (ftys : List (String × Ty)) (x : String),
      lookupName (assembleFields ftys vals) x =
        (lookupName ftys x).map fun t => (lookupName vals x).getD (defaultValue t) := by
  intro ftys
  induction ftys with
  | nil => intro x; rfl
  | cons p rest ih =>
    obtain ⟨n, t⟩ := p
    intro x
    by_cases hx : n = x
    · simp [assembleFields, lookupName, hx]
    · simp only [assembleFields, List.map_cons, lookupName, if_neg hx]
      exact ih x

/-- C8.  Evaluating a struct literal that names a field not present in the
target struct's field set fails with an unknown-field error and produces
no value; fields that are present but not mentioned by the literal take
their schema-declared defaults in the evaluated struct. -/
theorem struct_literal_unknown_field_and_defaults :
    (∀ (ftys : List (String × Ty)) (pre : List (String × ConstExpr))
       (vals : List (String × DynValue)) (name : String) (e : ConstExpr)
       (post : List (String × ConstExpr)),
      evalNamed pre ftys = .ok vals →
      lookupName ftys name = none →
      evaluate (.structLit (pre ++ (name, e) :: post)) (.strct ftys) =
        .error (.unknownField name)) ∧
    (∀ (ftys : List (String × Ty)) (lits : List (String × ConstExpr))
       (vals : List (String × DynValue)) (fname : String) (fty : Ty),
      evalNamed lits ftys = .ok vals →
      lookupName ftys fname = some fty →
      lookupName lits fname = none →
      evaluate (.structLit lits) (.strct ftys) =
        .ok (.strct (assembleFields ftys vals)) ∧
      dynStructGet (.strct (assembleFields ftys vals)) fname =
        .ok (defaultValue fty)) := by
  constructor
  · intro ftys pre vals name e post hok hun
    simp only [evaluate, evalNamed_unknown ftys pre vals name e post hok hun]
  · intro ftys lits vals fname fty hok hft hlit
    have hvals : lookupName vals fname = none :=
      lookupName_none_of_keys lits vals (evalNamed_names lits ftys vals hok).symm
        fname hlit
    refine ⟨by simp [evaluate, hok], ?_⟩
    simp [dynStructGet, lookupName_assembleFields, hft, hvals]

/-- Witness for C8, replaying the test's Foo struct (bar :Int16,
baz :Text): the literal (bar = 123, corge = "x") fails with unknown-field
corge and the literal (bar = 123) succeeds with baz bound to its default
empty text. -/
theorem struct_literal_unknown_field_and_defaults_witness :
    evaluate (.structLit [("bar", .intLit 123), ("corge", .textLit "x")])
        (.strct [("bar", .int16), ("baz", .text)]) =
      .error (.unknownField "corge") ∧
    evaluate (.structLit [("bar", .intLit 123)])
        (.strct [("bar", .int16), ("baz", .text)]) =
      .ok (.strct [("bar", .int16 123), ("baz", .text "")]) ∧
    dynStructGet (.strct [("bar", .int16 123), ("baz", .text "")]) "baz" =
      .ok (.text "") := by
  have h1 := struct_literal_unknown_field_and_defaults.1
    [("bar", .int16), ("baz", .text)] [("bar", .intLit 123)] [("bar", .int16 123)]
    "corge" (.textLit "x") [] rfl rfl
  have h2 := struct_literal_unknown_field_and_defaults.2
    [("bar", .int16), ("baz", .text)] [("bar", .intLit 123)] [("bar", .int16 123)]
    "baz" .text rfl rfl rfl
  exact ⟨h1, h2.1, h2.2⟩

/-! ## C9: list indexing at or past the size fails locally -/

/-- C9.  Indexing a dynamic list with any index not less than its size
fails with an index-out-of-range error; the failure is local to that
access and leaves the underlying value valid: every in-range index still
reads back its element. -/
theorem list_index_out_of_range_error
    (t : Ty) (es : List DynValue) (i : Nat) (hge : es.length ≤ i) :
    dynListIndex (.list t es) i = .error .indexOutOfRange ∧
    dynListSize (.list t es) = .ok es.length ∧
    ∀ (j : Nat) (hj : j < es.length),
      dynListIndex (.list t es) j = .ok (es.get ⟨j, hj⟩) := by
  refine ⟨?_, rfl, ?_⟩
  · simp only [dynListIndex, dif_neg (Nat.not_lt.mpr hge)]
  · intro j hj
    simp only [dynListIndex, dif_pos hj]

/-- Witness for C9, replaying the test: indexing the three-element list
constant at index 3 (its size, one past the last valid index) fails with
index-out-of-range, while index 0 still reads back the first element. -/
theorem list_index_out_of_range_error_witness :
    dynListIndex (.list .uint32 [.uint32 1, .uint32 2, .uint32 3]) 3 =
      .error .indexOutOfRange ∧
    dynListSize (.list .uint32 [.uint32 1, .uint32 2, .uint32 3]) = .ok 3 ∧
    dynListIndex (.list .uint32 [.uint32 1, .uint32 2, .uint32 3]) 0 =
      .ok (.uint32 1) := by
  have h := list_index_out_of_range_error .uint32 [.uint32 1, .uint32 2, .uint32 3]
    3 (by decide)
  exact ⟨h.1, h.2.1, h.2.2 0 (by decide)⟩

end SchemaParserCore
